import Mathlib

/-!
Verification of the hpxsc-spack recipe (`src/packages/hpxsc/package.py`)
against the variant-constraint dependency resolver specified in `spec.md`.

The repository ships only the declarative recipe (variants, conditional
`depends_on` rules, `conflicts` rules).  The resolver that consumes this
data is specified in spec.md sections 3-7 but its code is not part of the
repository, so it is modelled here from the spec's words; the recipe data
itself is embedded directly from `package.py`.
-/

namespace HpxscSpack

/-- Versions as used by the recipe: either a numbered release (dot-separated
numbers, e.g. `1.9.1` as `[1, 9, 1]`) or the development branch `master`,
which the recipe declares with `preferred=True` and which is treated as the
greatest version. -/
inductive Version where
  | rel (parts : List Nat)
  | master
deriving DecidableEq, Repr

/-- Lexicographic less-or-equal on dotted version number parts; a strict
prefix is smaller (`1.9 ≤ 1.9.1`). -/
def lexLe : List Nat → List Nat → Bool
  | [], _ => true
  | _ :: _, [] => false
  | a :: as, b :: bs => if a < b then true else if a = b then lexLe as bs else false

/-- Order on versions: `master` (the preferred development branch) is the
greatest version, numbered releases compare lexicographically. -/
def vLe : Version → Version → Bool
  | _, .master => true
  | .master, .rel _ => false
  | .rel a, .rel b => lexLe a b

/-- Is `a` a prefix of `b`?  Used for upper version bounds: the recipe range
`@:10` includes `10.3` (Spack-style inclusive prefix upper bound). -/
def partsPre : List Nat → List Nat → Bool
  | [], _ => true
  | _ :: _, [] => false
  | a :: as, b :: bs => if a = b then partsPre as bs else false

/-- A version range, written `@lo:hi` in the recipe (either bound optional,
`@X` alone pins lo = hi = X). -/
structure VRange where
  lo : Option Version
  hi : Option Version
deriving DecidableEq, Repr

/-- Upper-bound satisfaction: `v` at or below `h`, where a numbered bound
also admits its own sub-versions (`:10` admits `10.3`). -/
def hiOk (v h : Version) : Bool :=
  vLe v h ||
    (match v, h with
     | .rel a, .rel b => partsPre b a
     | _, _ => false)

/-- Does version `v` satisfy the range? -/
def VRange.sat (r : VRange) (v : Version) : Bool :=
  (match r.lo with | none => true | some l => vLe l v) &&
  (match r.hi with | none => true | some h => hiOk v h)

/-- An atomic condition of a recipe predicate: a variant equation
(`+cuda`, `-cuda`, `cuda_arch=70`), a version-range test (`@0.1.0:`), or a
compiler test (`%gcc`, `%gcc@:10`). -/
inductive Atom where
  | var (name val : String)
  | versionIn (r : VRange)
  | compIs (cname : String) (r : Option VRange)
deriving DecidableEq, Repr

/-- Predicates over a node's variant assignment, version and the active
compiler.  Recipe `when="..."` strings are conjunctions of atoms; the spec
(§3) generalizes to an AND/OR/NOT tree, which we embed in full. -/
inductive Pred where
  | tt
  | atom (a : Atom)
  | and (p q : Pred)
  | or (p q : Pred)
  | neg (p : Pred)
deriving DecidableEq, Repr

/-- Look up a variant value in an association-list assignment. -/
def lookupA (a : List (String × String)) (k : String) : Option String :=
  (a.find? (fun kv => kv.1 = k)).map (fun kv => kv.2)

/-- Kleene three-valued AND (spec §4.2): false dominates, unknown (`none`)
propagates otherwise. -/
def andO : Option Bool → Option Bool → Option Bool
  | some false, _ => some false
  | _, some false => some false
  | some true, some true => some true
  | _, _ => none

/-- Kleene three-valued OR: true dominates, unknown propagates otherwise. -/
def orO : Option Bool → Option Bool → Option Bool
  | some true, _ => some true
  | _, some true => some true
  | some false, some false => some false
  | _, _ => none

/-- Kleene three-valued NOT. -/
def negO : Option Bool → Option Bool
  | some b => some (!b)
  | none => none

/-- Evaluate an atom against a (possibly partial) variant assignment, a node
version and the compiler fact; an atom over an unassigned variant is
unknown (spec §4.2). -/
def evalAtom (comp : String × List Nat) (ver : Version)
    (a : List (String × String)) : Atom → Option Bool
  | .var n v => (lookupA a n).map (fun x => decide (x = v))
  | .versionIn r => some (r.sat ver)
  | .compIs c r =>
      some (decide (c = comp.1) &&
        (match r with | none => true | some rr => rr.sat (.rel comp.2)))

/-- Three-valued predicate evaluation (spec §4.2): unknown atoms propagate
through AND/OR/NOT by the standard Kleene tables. -/
def evalPred (comp : String × List Nat) (ver : Version)
    (a : List (String × String)) : Pred → Option Bool
  | .tt => some true
  | .atom at_ => evalAtom comp ver a at_
  | .and p q => andO (evalPred comp ver a p) (evalPred comp ver a q)
  | .or p q => orO (evalPred comp ver a p) (evalPred comp ver a q)
  | .neg p => negO (evalPred comp ver a p)

/-- A variant declaration (spec §3): name, allowed value domain, default
value, and the applicability predicate from the recipe's `when=` argument
(`Pred.tt` when unconditional). -/
structure VariantDef where
  name : String
  domain : List String
  vdefault : String
  appliesWhen : Pred
deriving DecidableEq, Repr

/-- A conditional dependency rule (spec §3): `depends_on(target-spec,
when=activation)`.  The target spec splits into variant constraints
(`+cuda`, `cxxstd=17`) and version-range constraints (`@1.9.1:`). -/
structure DepRule where
  target : String
  tcVars : List (String × String)
  tcVers : List VRange
  activation : Pred
deriving DecidableEq, Repr

/-- A conflict rule (spec §3): `conflicts(constraint, when=cond)` holds the
single predicate `constraint AND cond`, which must never evaluate to true
in a valid resolution. -/
structure ConflictRule where
  pred : Pred
deriving DecidableEq, Repr

/-- A package definition (spec §3): name, declared versions, variants,
dependency rules and conflict rules. -/
structure PackageDef where
  pname : String
  versions : List Version
  variants : List VariantDef
  deps : List DepRule
  conflicts : List ConflictRule
deriving DecidableEq, Repr

/-- A node of the Concretized Graph (spec §3 Spec Node, frozen): package
name, chosen version and concrete variant assignment. -/
structure CNode where
  name : String
  version : Version
  assign : List (String × String)
deriving DecidableEq, Repr

/-- An edge of the Concretized Graph, one per activated dependency rule,
recording the rule's activation predicate and target constraints. -/
structure CEdge where
  parent : String
  target : String
  activation : Pred
  tcVars : List (String × String)
  tcVers : List VRange
deriving DecidableEq, Repr

/-- The resolver's output (spec §4.5): an immutable graph of concretized
nodes; node identity is the package name (spec §4.3 merges all rules
targeting one package onto one shared node). -/
structure ConcretizedGraph where
  root : String
  nodes : List CNode
  edges : List CEdge
deriving DecidableEq, Repr

/-- Error taxonomy of spec §7 (resolution-relevant part; diagnostic
payloads such as the minimal conflicting rule set are elided). -/
inductive RErr where
  | invalidValue
  | unsatisfiable
  | cyclic
  | notFound
deriving DecidableEq, Repr

/-- Candidate values for one variant during search (spec §4.4 steps 1 and
3): an externally forced value (user override or merged target constraint)
is the only candidate; otherwise the default value is tried first, then the
remaining domain values in declaration order. -/
def cands (forced : List (String × String)) (v : VariantDef) : List String :=
  match lookupA forced v.name with
  | some x => [x]
  | none => v.vdefault :: v.domain.filter (fun d => d ≠ v.vdefault)

/-- First `some` produced by `f` along the list, `none` if there is none. -/
def firstSome {α β : Type} (f : α → Option β) : List α → Option β
  | [] => none
  | x :: xs =>
    match f x with
    | some b => some b
    | none => firstSome f xs

/-- Modelled from the spec: the Resolver's backtracking search over one
node's variants (spec §4.4, the CSP engine, absent from the repository).
Variants are visited in declaration order; a variant whose applicability
predicate is definitely false under the partial assignment carries no value
(spec §3); each candidate value is pruned if it makes some conflict
predicate definitely true (step 1/3 propagation); at a full assignment the
success condition of step 4 is checked: no conflict is true and every
forced value was honored. -/
def searchVars (comp : String × List Nat) (ver : Version)
    (cfl : List Pred) (forced : List (String × String)) :
    List VariantDef → List (String × String) → Option (List (String × String))
  | [], acc =>
      if cfl.all (fun c => evalPred comp ver acc c ≠ some true) &&
         forced.all (fun kv => lookupA acc kv.1 = some kv.2) then
        some acc
      else
        none
  | v :: rest, acc =>
      if evalPred comp ver acc v.appliesWhen = some false then
        searchVars comp ver cfl forced rest acc
      else
        firstSome
          (fun x =>
            let acc' := acc ++ [(v.name, x)]
            if cfl.any (fun c => evalPred comp ver acc' c = some true) then
              none
            else
              searchVars comp ver cfl forced rest acc')
          (cands forced v)

/-- Do all ranges in the list admit version `v`? -/
def satAllB (cs : List VRange) (v : Version) : Bool :=
  cs.all (fun r => r.sat v)

/-- Running maximum of versions satisfying all ranges. -/
def pickBetter (cs : List VRange) (best : Option Version) (w : Version) :
    Option Version :=
  if satAllB cs w then
    match best with
    | none => some w
    | some b => if vLe b w then some w else some b
  else best

/-- Modelled from the spec: global per-node version maximization (spec §4.4
tie-break policy, absent from the repository) — the highest declared
version satisfying every version-range constraint collected for the node,
computed from version constraints alone, before variant solving. -/
def pickVersion (cs : List VRange) (versions : List Version) : Option Version :=
  versions.foldl (pickBetter cs) none

/-- Modelled from the spec: conjunctive merge of target variant constraints
from several rules onto one node (spec §4.3); two different required values
for the same variant are a contradiction (`none`). -/
def mergeTC : List (String × String) → List (String × String) →
    Option (List (String × String))
  | acc, [] => some acc
  | acc, kv :: rest =>
      match lookupA acc kv.1 with
      | some v => if v = kv.2 then mergeTC acc rest else none
      | none => mergeTC (acc ++ [kv]) rest

/-- Merge the variant constraints of a list of rules (conjunction, spec
§4.3). -/
def mergeAll : List (List (String × String)) →
    Option (List (String × String))
  | [] => some []
  | tc :: rest =>
      match mergeAll rest with
      | none => none
      | some acc => mergeTC acc tc

/-- Insert a node into a name-keyed node list: a node of the same name must
be identical (spec §3: a dependency required identically by two parents is
deduplicated into one shared node; spec §4.3: a contradictory merge fails). -/
def insertNode (ns : List CNode) (n : CNode) : Option (List CNode) :=
  match ns.find? (fun m => m.name = n.name) with
  | some m => if m = n then some ns else none
  | none => some (ns ++ [n])

/-- Merge the node lists of two subgraphs, failing on contradictory shared
nodes. -/
def mergeNodes (ns : List CNode) (ms : List CNode) : Option (List CNode) :=
  ms.foldl
    (fun acc m => match acc with
      | none => none
      | some acc' => insertNode acc' m)
    (some ns)

/-- `mapM` for `Except` over a list, written out so it stays structurally
recursive. -/
def exceptMap {α β : Type} (f : α → Except RErr β) :
    List α → Except RErr (List β)
  | [] => .ok []
  | x :: xs =>
      match f x with
      | .error e => .error e
      | .ok b =>
          match exceptMap f xs with
          | .error e => .error e
          | .ok bs => .ok (b :: bs)

/-- First-occurrence deduplication of a list of names, with an accumulator
of names already seen. -/
def dedupAux : List String → List String → List String
  | [], _ => []
  | x :: xs, seen =>
      if x ∈ seen then dedupAux xs seen else x :: dedupAux xs (x :: seen)

/-- First-occurrence deduplication of a list of names. -/
def dedup (xs : List String) : List String :=
  dedupAux xs []

/-- Modelled from the spec: one step of the Spec Graph Builder + Resolver
(spec §4.3-§4.4, absent from the repository) for one package: detect cycles
on the current path (`CyclicDependencyError`), pick the node's version by
global maximization over the collected version constraints (phase 1),
validate forced values against the variant domains (`InvalidValueError`,
caught before search, spec §7), solve the node's variants by backtracking
search (phase 2), then activate every dependency rule whose predicate is
definitely true under the final assignment, merge the constraints of rules
sharing a target conjunctively, and recurse depth-first, deduplicating
shared nodes (phase 3).  `fuel` only bounds the recursion depth; it is
never reached before the path check fires. -/
def resolveNode (defs : List PackageDef) (comp : String × List Nat) :
    Nat → List String → String → List VRange → List (String × String) →
    Except RErr ConcretizedGraph
  | 0, _, _, _, _ => .error .cyclic
  | Nat.succ fuel, path, pkg, vreq, forced =>
      if pkg ∈ path then .error .cyclic
      else
        match defs.find? (fun d => d.pname = pkg) with
        | none => .error .notFound
        | some pd =>
          match pickVersion vreq pd.versions with
          | none => .error .unsatisfiable
          | some ver =>
            if forced.all (fun kv =>
                 pd.variants.any (fun v => v.name = kv.1 && kv.2 ∈ v.domain)) then
              match searchVars comp ver (pd.conflicts.map (fun c => c.pred))
                  forced pd.variants [] with
              | none => .error .unsatisfiable
              | some a =>
                let act := pd.deps.filter
                  (fun r => evalPred comp ver a r.activation = some true)
                let tgts := dedup (act.map (fun r => r.target))
                let children := exceptMap
                  (fun t =>
                    let rs := act.filter (fun r => r.target = t)
                    match mergeAll (rs.map (fun r => r.tcVars)) with
                    | none => .error .unsatisfiable
                    | some mtc =>
                        resolveNode defs comp fuel (pkg :: path) t
                          (rs.flatMap (fun r => r.tcVers)) mtc)
                  tgts
                match children with
                | .error e => .error e
                | .ok gs =>
                  let nodes0 : List CNode := [⟨pkg, ver, a⟩]
                  let merged := gs.foldl
                    (fun accN g => match accN with
                      | none => none
                      | some ns => mergeNodes ns g.nodes)
                    (some nodes0)
                  match merged with
                  | none => .error .unsatisfiable
                  | some ns =>
                    .ok ⟨pkg, ns,
                      act.map (fun r =>
                        ⟨pkg, r.target, r.activation, r.tcVars, r.tcVers⟩) ++
                      gs.flatMap (fun g => g.edges)⟩
            else .error .invalidValue

/-- A node's assignment satisfies an edge's target constraints: every
required variant value is assigned, and the node's version lies in every
required range (spec §8, first testable property). -/
def NodeSat (c : CNode) (tcv : List (String × String))
    (tcr : List VRange) : Prop :=
  (∀ kv ∈ tcv, lookupA c.assign kv.1 = some kv.2) ∧
  (∀ r ∈ tcr, r.sat c.version = true)

instance (c : CNode) (tcv : List (String × String)) (tcr : List VRange) :
    Decidable (NodeSat c tcv tcr) := by
  unfold NodeSat; infer_instance

/-- An edge is honored (spec §8): its parent node exists and makes the
activation predicate definitely true, and its target node exists and
satisfies the target constraints. -/
def EdgeOk (comp : String × List Nat) (g : ConcretizedGraph)
    (e : CEdge) : Prop :=
  (∃ p ∈ g.nodes, p.name = e.parent ∧
     evalPred comp p.version p.assign e.activation = some true) ∧
  (∃ c ∈ g.nodes, c.name = e.target ∧ NodeSat c e.tcVars e.tcVers)

instance (comp : String × List Nat) (g : ConcretizedGraph) (e : CEdge) :
    Decidable (EdgeOk comp g e) := by
  unfold EdgeOk; infer_instance

/-- All version ranges admit `v` (propositional form). -/
def SatAll (cs : List VRange) (v : Version) : Prop :=
  ∀ r ∈ cs, r.sat v = true

/-- `v` is the highest declared version satisfying all collected ranges
(spec §4.4 tie-break policy). -/
def IsMaxVersion (versions : List Version) (cs : List VRange)
    (v : Version) : Prop :=
  v ∈ versions ∧ SatAll cs v ∧
  ∀ w ∈ versions, SatAll cs w → vLe w v = true

instance (versions : List Version) (cs : List VRange) (v : Version) :
    Decidable (IsMaxVersion versions cs v) := by
  unfold IsMaxVersion SatAll; infer_instance

/-- The version-range constraints collected for a node: the caller's root
request for the root node, plus the target constraints of every edge
pointing at the node. -/
def collectedCs (g : ConcretizedGraph) (vreq : List VRange)
    (n : CNode) : List VRange :=
  (if n.name = g.root then vreq else []) ++
  (g.edges.filter (fun e => e.target = n.name)).flatMap (fun e => e.tcVers)

/-- Per-node success conditions (spec §4.4 step 4, §8, §3 invariant): the
node's package is defined; no conflict predicate is true; every activated
dependency rule has its edge in the graph; every definitely-applicable
variant holds a value; every held value is in its variant's domain; and the
node's version is the highest one satisfying the collected constraints. -/
def NodeOk (defs : List PackageDef) (comp : String × List Nat)
    (vreq : List VRange) (g : ConcretizedGraph) (n : CNode) : Prop :=
  ∃ pd ∈ defs,
    defs.find? (fun d => d.pname = n.name) = some pd ∧
    (∀ cr ∈ pd.conflicts,
      ¬ evalPred comp n.version n.assign cr.pred = some true) ∧
    (∀ r ∈ pd.deps,
      evalPred comp n.version n.assign r.activation = some true →
      ∃ e ∈ g.edges, e.parent = n.name ∧ e.target = r.target ∧
        e.activation = r.activation ∧ e.tcVars = r.tcVars ∧
        e.tcVers = r.tcVers) ∧
    (∀ v ∈ pd.variants,
      evalPred comp n.version n.assign v.appliesWhen = some true →
      (lookupA n.assign v.name).isSome = true) ∧
    (∀ kv ∈ n.assign, ∃ v ∈ pd.variants, v.name = kv.1 ∧ kv.2 ∈ v.domain) ∧
    IsMaxVersion pd.versions (collectedCs g vreq n) n.version

instance (defs : List PackageDef) (comp : String × List Nat)
    (vreq : List VRange) (g : ConcretizedGraph) (n : CNode) :
    Decidable (NodeOk defs comp vreq g n) := by
  unfold NodeOk; infer_instance

/-- The resolver's global success condition (spec §4.4 step 4 and the
testable properties of §8), validated before the graph is frozen. -/
def GraphOk (defs : List PackageDef) (comp : String × List Nat)
    (vreq : List VRange) (root : String) (g : ConcretizedGraph) : Prop :=
  g.root = root ∧
  (∃ n ∈ g.nodes, n.name = root) ∧
  (∀ e ∈ g.edges, EdgeOk comp g e) ∧
  (∀ n ∈ g.nodes, NodeOk defs comp vreq g n)

instance (defs : List PackageDef) (comp : String × List Nat)
    (vreq : List VRange) (root : String) (g : ConcretizedGraph) :
    Decidable (GraphOk defs comp vreq root g) := by
  unfold GraphOk; infer_instance

/-- Modelled from the spec: the resolver entry point (spec §6,
`resolve(root_package, overrides, known_definitions)`, absent from the
repository), extended with the compiler fact referenced by `%gcc`-style
atoms and an optional root version request.  It runs the depth-first
builder/search and freezes the graph only after validating the success
condition of §4.4 step 4; every failure is terminal (spec §7) — no partial
graph is ever returned. -/
def resolve (defs : List PackageDef) (comp : String × List Nat)
    (root : String) (vreq : List VRange) (overrides : List (String × String)) :
    Except RErr ConcretizedGraph :=
  match resolveNode defs comp (defs.length + 1) [] root vreq overrides with
  | .error e => .error e
  | .ok g =>
      if decide (GraphOk defs comp vreq root g) = true then .ok g
      else .error .unsatisfiable

/-! ## The hpxsc recipe data, embedded from `src/packages/hpxsc/package.py` -/

/-- Boolean variant domain; recipe `+v` is `v = "true"`, `-v`/`~v` is
`v = "false"`. -/
def bdom : List String := ["false", "true"]

/-- The recipe predicate `@0.1.0:`. -/
def since010 : Pred := .atom (.versionIn ⟨some (.rel [0, 1, 0]), none⟩)

/-- Shorthand for a `variant == value` atom. -/
def pv (n v : String) : Pred := .atom (.var n v)

/-- Shorthand for `+name` (boolean variant true). -/
def pT (n : String) : Pred := pv n "true"

/-- Shorthand for `-name` / `~name` (boolean variant false). -/
def pF (n : String) : Pred := pv n "false"

/-- Modelled from the spec: `CudaPackage.cuda_arch_values`, the enumerable
axis of GPU targets the recipe's first `for` loop ranges over (the
`CudaPackage` mixin is external to the repository; spec §9 treats it as a
rule template parameterized over an enumerable architecture axis). -/
def cudaArchValues : List String := ["50", "60", "70", "75", "80", "86", "90"]

/-- Modelled from the spec: `ROCmPackage.amdgpu_targets`, the enumerable
axis the recipe's second `for` loop ranges over (the `ROCmPackage` mixin is
external to the repository). -/
def amdgpuTargets : List String :=
  ["gfx900", "gfx906", "gfx908", "gfx90a", "gfx942"]

/-- The variants declared by class `Hpxsc` (package.py lines 30-63), plus
the `cuda_arch` / `amdgpu_target` variants contributed by the
`CudaPackage` / `ROCmPackage` mixins (line 10), modelled as single-valued
enumerations with default `none`. -/
def hpxscVariants : List VariantDef :=
  [⟨"sycl", bdom, "false", since010⟩,
   ⟨"cuda", bdom, "false", since010⟩,
   ⟨"rocm", bdom, "false", since010⟩,
   ⟨"kokkos", bdom, "false", since010⟩,
   ⟨"kokkos_hpx_kernels", bdom, "false", .and since010 (pT "kokkos")⟩,
   ⟨"simd_library", ["KOKKOS", "STD"], "KOKKOS", .and since010 (pT "kokkos")⟩,
   ⟨"simd_extension", ["DISCOVER", "SCALAR", "AVX", "AVX512", "NEON", "SVE"],
     "DISCOVER", since010⟩,
   ⟨"boost_multiprecision", bdom, "false", .tt⟩,
   ⟨"cxx20", bdom, "false", .tt⟩,
   ⟨"cuda_arch", "none" :: cudaArchValues, "none", .tt⟩,
   ⟨"amdgpu_target", "none" :: amdgpuTargets, "none", .tt⟩]

/-- `kokkos_string = 'kokkos +serial +aggressive_vectorization '`
(package.py line 93): target `kokkos` with those two variant constraints. -/
def kokkosBase : List (String × String) :=
  [("serial", "true"), ("aggressive_vectorization", "true")]

/-- The three per-architecture rules of the recipe's CUDA loop
(package.py lines 99-106), for one architecture value `sm`. -/
def cudaLoopRules (sm : String) : List DepRule :=
  [⟨"kokkos",
     kokkosBase ++ [("cuda", "true"), ("cuda_lambda", "true"), ("cuda_arch", sm)],
     [],
     .and (pT "kokkos") (.and (pT "cuda") (pv "cuda_arch" sm))⟩,
   ⟨"hpx-kokkos", [("cuda", "true"), ("cuda_arch", sm)], [],
     .and (pT "kokkos") (.and (pT "cuda") (pv "cuda_arch" sm))⟩,
   ⟨"hpx", [("cuda", "true"), ("cuda_arch", sm)], [],
     .and (pT "cuda") (pv "cuda_arch" sm)⟩]

/-- The three per-target rules of the recipe's ROCm loop
(package.py lines 107-115), for one target value `gfx`. -/
def rocmLoopRules (gfx : String) : List DepRule :=
  [⟨"kokkos", kokkosBase ++ [("rocm", "true"), ("amdgpu_target", gfx)], [],
     .and (pT "kokkos") (.and (pT "rocm") (pv "amdgpu_target" gfx))⟩,
   ⟨"hpx", [("rocm", "true"), ("amdgpu_target", gfx)], [],
     .and (pT "rocm") (pv "amdgpu_target" gfx)⟩,
   ⟨"hpx-kokkos", [("rocm", "true"), ("amdgpu_target", gfx)],
     [⟨some .master, some .master⟩],
     .and (pT "kokkos") (.and (pT "rocm") (pv "amdgpu_target" gfx))⟩]

/-- The `depends_on` rules of class `Hpxsc` (package.py lines 71-115), in
declaration order; the two `for` loops expand over the architecture axes
(spec §9). -/
def hpxscDeps : List DepRule :=
  [⟨"hpx", [("cxxstd", "17")], [⟨some (.rel [1, 9, 1]), none⟩], since010⟩,
   ⟨"hpx", [("cuda", "true"), ("async_cuda", "true")], [], pT "cuda"⟩,
   ⟨"hpx", [("rocm", "true")], [], pT "rocm"⟩,
   ⟨"hpx", [("cuda", "false"), ("rocm", "false")], [],
     .and (pF "cuda") (pF "rocm")⟩,
   ⟨"hpx", [("sycl", "true")], [], pT "sycl"⟩,
   ⟨"hpx-kokkos", [], [⟨some (.rel [0, 4, 0]), none⟩],
     .and since010 (pT "kokkos")⟩,
   ⟨"hpx-kokkos", [("sycl", "true")], [], .and (pT "sycl") (pT "kokkos")⟩,
   ⟨"hpx-kokkos", [("cuda", "true")], [], .and (pT "kokkos") (pT "cuda")⟩,
   ⟨"hpx-kokkos", [("cuda", "false")], [], .and (pT "kokkos") (pF "cuda")⟩,
   ⟨"cppuddle", [("hpx", "true")], [⟨some (.rel [0, 2, 1]), none⟩], since010⟩,
   ⟨"kokkos", [], [⟨some (.rel [3, 6, 1]), none⟩],
     .and since010 (pT "kokkos")⟩,
   ⟨"kokkos", [("hpx", "true")], [⟨some (.rel [4, 1, 0]), none⟩],
     .and (pT "kokkos_hpx_kernels") since010⟩,
   ⟨"kokkos", [("sycl", "true")], [], .and (pT "sycl") (pT "kokkos")⟩,
   ⟨"kokkos",
     kokkosBase ++
       [("cuda", "false"), ("cuda_lambda", "false"), ("wrapper", "false")],
     [], .and (pT "kokkos") (pF "cuda")⟩,
   ⟨"kokkos", kokkosBase ++ [("wrapper", "true")], [],
     .and (pT "kokkos") (.and (pT "cuda") (.atom (.compIs "gcc" none)))⟩] ++
  cudaArchValues.flatMap cudaLoopRules ++
  amdgpuTargets.flatMap rocmLoopRules

/-- The `conflicts` rules of class `Hpxsc` (package.py lines 118-126); each
`conflicts(c, when=w)` becomes the predicate `c AND w`. -/
def hpxscConflicts : List ConflictRule :=
  [⟨.and (pT "cuda") (pv "cuda_arch" "none")⟩,
   ⟨.and (pT "kokkos_hpx_kernels") (pF "kokkos")⟩,
   ⟨.and (pv "simd_library" "STD")
      (.atom (.compIs "gcc" (some ⟨none, some (.rel [10])⟩)))⟩,
   ⟨.and (pv "simd_library" "STD") (.atom (.compIs "clang" none))⟩,
   ⟨.and (.and (pv "simd_extension" "SVE") (pv "simd_library" "STD"))
      (pF "cxx20")⟩,
   ⟨.and (pT "cuda") (pT "rocm")⟩,
   ⟨.and (pT "rocm") (pF "kokkos")⟩]

/-- The `Hpxsc` package definition (package.py lines 10-126): versions
`master` (preferred) and `0.1.0`, its variants, dependency rules and
conflicts. -/
def hpxsc : PackageDef :=
  ⟨"hpxsc", [.master, .rel [0, 1, 0]], hpxscVariants, hpxscDeps,
    hpxscConflicts⟩

/-- Modelled from the spec: the external `hpx` Package Definition (spec §6,
recipe ingestion — hpx's own recipe is not part of this repository), with
the versions and variants the hpxsc rules constrain. -/
def hpxPkg : PackageDef :=
  ⟨"hpx", [.rel [1, 10, 0], .rel [1, 9, 1], .rel [1, 9, 0]],
    [⟨"cxxstd", ["17", "20"], "17", .tt⟩,
     ⟨"cuda", bdom, "false", .tt⟩,
     ⟨"async_cuda", bdom, "false", .tt⟩,
     ⟨"rocm", bdom, "false", .tt⟩,
     ⟨"sycl", bdom, "false", .tt⟩,
     ⟨"cuda_arch", "none" :: cudaArchValues, "none", .tt⟩,
     ⟨"amdgpu_target", "none" :: amdgpuTargets, "none", .tt⟩],
    [], []⟩

/-- Modelled from the spec: the external `hpx-kokkos` Package Definition
(not part of this repository); its declared versions include the `master`
branch required by the recipe's ROCm loop. -/
def hpxKokkosPkg : PackageDef :=
  ⟨"hpx-kokkos", [.master, .rel [0, 4, 0], .rel [0, 3, 0]],
    [⟨"cuda", bdom, "false", .tt⟩,
     ⟨"rocm", bdom, "false", .tt⟩,
     ⟨"sycl", bdom, "false", .tt⟩,
     ⟨"cuda_arch", "none" :: cudaArchValues, "none", .tt⟩,
     ⟨"amdgpu_target", "none" :: amdgpuTargets, "none", .tt⟩],
    [], []⟩

/-- Modelled from the spec: the external `kokkos` Package Definition (not
part of this repository), with the variants the hpxsc rules constrain. -/
def kokkosPkg : PackageDef :=
  ⟨"kokkos", [.rel [4, 1, 0], .rel [3, 7, 2], .rel [3, 6, 1]],
    [⟨"serial", bdom, "false", .tt⟩,
     ⟨"aggressive_vectorization", bdom, "false", .tt⟩,
     ⟨"cuda", bdom, "false", .tt⟩,
     ⟨"cuda_lambda", bdom, "false", .tt⟩,
     ⟨"wrapper", bdom, "false", .tt⟩,
     ⟨"sycl", bdom, "false", .tt⟩,
     ⟨"hpx", bdom, "false", .tt⟩,
     ⟨"rocm", bdom, "false", .tt⟩,
     ⟨"cuda_arch", "none" :: cudaArchValues, "none", .tt⟩,
     ⟨"amdgpu_target", "none" :: amdgpuTargets, "none", .tt⟩],
    [], []⟩

/-- Modelled from the spec: the external `cppuddle` Package Definition (not
part of this repository). -/
def cppuddlePkg : PackageDef :=
  ⟨"cppuddle", [.rel [0, 3, 0], .rel [0, 2, 1]],
    [⟨"hpx", bdom, "false", .tt⟩], [], []⟩

/-- The known-definitions mapping handed to `resolve` (spec §6): the hpxsc
recipe together with the external definitions it references. -/
def hpxscDefs : List PackageDef :=
  [hpxsc, hpxPkg, hpxKokkosPkg, kokkosPkg, cppuddlePkg]

/-- A concrete compiler fact for concrete resolutions: gcc 12. -/
def gcc12 : String × List Nat := ("gcc", [12])

/-! ## Canonical string encoding (spec §4.5) -/

/-- Dotted rendering of version number parts. -/
def partsStr : List Nat → String
  | [] => ""
  | [x] => toString x
  | x :: y :: xs => toString x ++ "." ++ partsStr (y :: xs)

/-- Textual form of a version. -/
def versionStr : Version → String
  | .master => "master"
  | .rel p => partsStr p

/-- Textual form of a version range. -/
def vrangeStr (r : VRange) : String :=
  (match r.lo with | none => "" | some v => versionStr v) ++ ":" ++
  (match r.hi with | none => "" | some v => versionStr v)

/-- Textual form of an atom. -/
def atomStr : Atom → String
  | .var n v => n ++ "=" ++ v
  | .versionIn r => "@" ++ vrangeStr r
  | .compIs c r =>
      "%" ++ c ++
      (match r with | none => "" | some rr => "@" ++ vrangeStr rr)

/-- Textual form of a predicate. -/
def predStr : Pred → String
  | .tt => "T"
  | .atom a => atomStr a
  | .and p q => "(" ++ predStr p ++ "&" ++ predStr q ++ ")"
  | .or p q => "(" ++ predStr p ++ "|" ++ predStr q ++ ")"
  | .neg p => "!" ++ predStr p

/-- Boolean string order used for canonicalization. -/
def strLe (a b : String) : Bool := decide (a ≤ b)

/-- Insert into a sorted list of strings. -/
def insertSorted (x : String) : List String → List String
  | [] => [x]
  | y :: ys => if strLe x y then x :: y :: ys else y :: insertSorted x ys

/-- Insertion sort on strings, for an order-independent encoding. -/
def sortStrs : List String → List String
  | [] => []
  | x :: xs => insertSorted x (sortStrs xs)

/-- Comma-join a list of strings. -/
def joinComma : List String → String
  | [] => ""
  | [x] => x
  | x :: y :: xs => x ++ "," ++ joinComma (y :: xs)

/-- Textual form of one assignment pair. -/
def pairStr (kv : String × String) : String := kv.1 ++ "=" ++ kv.2

/-- Textual form of a node: name, version and sorted assignment. -/
def nodeStr (n : CNode) : String :=
  n.name ++ "@" ++ versionStr n.version ++ "[" ++
    joinComma (sortStrs (n.assign.map pairStr)) ++ "]"

/-- Textual form of an edge: endpoints, activation predicate and sorted
target constraints. -/
def edgeStr (e : CEdge) : String :=
  e.parent ++ ">" ++ e.target ++ "[" ++ predStr e.activation ++ ";" ++
    joinComma (sortStrs (e.tcVars.map pairStr)) ++ ";" ++
    joinComma (sortStrs (e.tcVers.map vrangeStr)) ++ "]"

/-- Modelled from the spec: `to_canonical_string` (spec §4.5, absent from
the repository) — a deterministic textual encoding of a Concretized Graph,
independent of the construction order of the node and edge lists. -/
def toCanonicalString (g : ConcretizedGraph) : String :=
  g.root ++ "|" ++ joinComma (sortStrs (g.nodes.map nodeStr)) ++ "|" ++
    joinComma (sortStrs (g.edges.map edgeStr))

/-! ## Concrete resolutions used as witnesses -/

/-- Placeholder graph for extracting a successful resolution. -/
def dummyG : ConcretizedGraph := ⟨"", [], []⟩

/-- The root node of a graph (placeholder if absent). -/
def rootNode (g : ConcretizedGraph) : CNode :=
  (g.nodes.find? (fun n => n.name = g.root)).getD ⟨"", .master, []⟩

/-- The graph of the default hpxsc resolution (no overrides). -/
def G0 : ConcretizedGraph :=
  (resolve hpxscDefs gcc12 "hpxsc" [] []).toOption.getD dummyG

/-- The graph of the hpxsc resolution with `cuda=true`. -/
def GA : ConcretizedGraph :=
  (resolve hpxscDefs gcc12 "hpxsc" [] [("cuda", "true")]).toOption.getD dummyG

/-- The graph of the hpxsc resolution with `cuda=false`. -/
def GB : ConcretizedGraph :=
  (resolve hpxscDefs gcc12 "hpxsc" [] [("cuda", "false")]).toOption.getD dummyG

/-- The graph of the hpxsc resolution with `kokkos=true cuda=true`. -/
def GK : ConcretizedGraph :=
  (resolve hpxscDefs gcc12 "hpxsc" []
    [("kokkos", "true"), ("cuda", "true")]).toOption.getD dummyG

/-- The graph of the hpxsc resolution with
`kokkos=true rocm=true amdgpu_target=gfx908`. -/
def GR : ConcretizedGraph :=
  (resolve hpxscDefs gcc12 "hpxsc" []
    [("kokkos", "true"), ("rocm", "true"),
     ("amdgpu_target", "gfx908")]).toOption.getD dummyG

/-- Spec §8 Scenario 3, second half: a root package `p` with two rules
targeting `q`, rule A requiring `x=1` when `+cuda` and rule B requiring
`x=2` when `+kokkos` — a contradictory conjunctive merge. -/
def pPkg : PackageDef :=
  ⟨"p", [.rel [1, 0]],
    [⟨"cuda", bdom, "false", .tt⟩, ⟨"kokkos", bdom, "false", .tt⟩],
    [⟨"q", [("x", "1")], [], pT "cuda"⟩,
     ⟨"q", [("x", "2")], [], pT "kokkos"⟩],
    []⟩

/-- The target package of the merge-conflict scenario. -/
def qPkg : PackageDef :=
  ⟨"q", [.rel [1, 0]], [⟨"x", ["1", "2"], "1", .tt⟩], [], []⟩

/-- Definitions mapping for the merge-conflict scenario. -/
def scnDefs : List PackageDef := [pPkg, qPkg]

/-- The invariant of claim C1 over resolved graphs: every edge is honored
(activation true at the parent, target constraints satisfied at the
child), no conflict predicate of any node's package evaluates to true,
and in particular no hpxsc root carries both `cuda=true` and `rocm=true`. -/
def ResolveInv (defs : List PackageDef) (comp : String × List Nat)
    (root : String) (g : ConcretizedGraph) : Prop :=
  (∀ e ∈ g.edges,
     (∃ p ∈ g.nodes, p.name = e.parent ∧
        evalPred comp p.version p.assign e.activation = some true) ∧
     (∃ c ∈ g.nodes, c.name = e.target ∧ NodeSat c e.tcVars e.tcVers)) ∧
  (∀ n ∈ g.nodes, ∀ pd ∈ defs,
     defs.find? (fun d => d.pname = n.name) = some pd →
     ∀ cr ∈ pd.conflicts,
       ¬ evalPred comp n.version n.assign cr.pred = some true) ∧
  (defs = hpxscDefs → root = "hpxsc" →
     ∀ n ∈ g.nodes, n.name = "hpxsc" →
       ¬(lookupA n.assign "cuda" = some "true" ∧
         lookupA n.assign "rocm" = some "true"))

/-- Claim C8's conclusion for one GPU flavor: the graph holds `kokkos`,
`hpx-kokkos` and `hpx` nodes that carry the GPU flag and the chosen
architecture value. -/
def GpuChildren (g : ConcretizedGraph) (flag arch val : String) : Prop :=
  (∃ c ∈ g.nodes, c.name = "kokkos" ∧ lookupA c.assign flag = some "true" ∧
     lookupA c.assign arch = some val) ∧
  (∃ c ∈ g.nodes, c.name = "hpx-kokkos" ∧
     lookupA c.assign flag = some "true" ∧ lookupA c.assign arch = some val) ∧
  (∃ c ∈ g.nodes, c.name = "hpx" ∧ lookupA c.assign flag = some "true" ∧
     lookupA c.assign arch = some val)

/-! ## General lemmas about the resolver -/

/-- Every graph the resolver returns passed the success-condition
validation of spec §4.4 step 4. -/
theorem resolve_ok_graphOk {defs : List PackageDef} {comp : String × List Nat}
    {root : String} {vreq : List VRange} {ov : List (String × String)}
    {g : ConcretizedGraph}
    (h : resolve defs comp root vreq ov = .ok g) :
    GraphOk defs comp vreq root g := by
  unfold resolve at h
  cases hr : resolveNode defs comp (defs.length + 1) [] root vreq ov with
  | error e => rw [hr] at h; cases h
  | ok g0 =>
      rw [hr] at h
      dsimp only at h
      split at h
      · cases h
        exact of_decide_eq_true (by assumption)
      · cases h

/-- A successful variant lookup exhibits a pair of the assignment list. -/
theorem lookupA_mem {a : List (String × String)} {k v : String}
    (h : lookupA a k = some v) : (k, v) ∈ a := by
  unfold lookupA at h
  cases hf : a.find? (fun kv => kv.1 = k) with
  | none => rw [hf] at h; cases h
  | some kv =>
      rw [hf] at h
      have hk : kv.1 = k := by
        have := List.find?_some hf
        exact of_decide_eq_true this
      have hv : kv.2 = v := by
        simpa using h
      have hmem := List.mem_of_find?_eq_some hf
      have : (k, v) = kv := by
        cases kv; simp_all
      rw [this]; exact hmem

/-- Lexicographic order on version parts is antisymmetric. -/
theorem lexLe_antisymm : ∀ {a b : List Nat},
    lexLe a b = true → lexLe b a = true → a = b
  | [], [], _, _ => rfl
  | [], _ :: _, _, h2 => by simp [lexLe] at h2
  | _ :: _, [], h1, _ => by simp [lexLe] at h1
  | a :: as, b :: bs, h1, h2 => by
      unfold lexLe at h1 h2
      rcases Nat.lt_trichotomy a b with hab | heq | hba
      · rw [if_neg (by omega), if_neg (by omega)] at h2; cases h2
      · subst heq
        rw [if_neg (by omega), if_pos rfl] at h1
        rw [if_neg (by omega), if_pos rfl] at h2
        rw [lexLe_antisymm h1 h2]
      · rw [if_neg (by omega), if_neg (by omega)] at h1; cases h1

/-- The version order is antisymmetric; with totality this makes the
maximal satisfying version unique. -/
theorem vLe_antisymm : ∀ {a b : Version},
    vLe a b = true → vLe b a = true → a = b
  | .master, .master, _, _ => rfl
  | .master, .rel _, h1, _ => by simp [vLe] at h1
  | .rel _, .master, _, h2 => by simp [vLe] at h2
  | .rel a, .rel b, h1, h2 => by
      simp only [vLe] at h1 h2
      rw [lexLe_antisymm h1 h2]

/-- From a resolved hpxsc graph, an hpxsc dependency rule whose activation
predicate is true at the root yields a child node satisfying the rule's
target constraints. -/
theorem dep_child {comp : String × List Nat} {vreq : List VRange}
    {ov : List (String × String)} {g : ConcretizedGraph}
    (h : resolve hpxscDefs comp "hpxsc" vreq ov = .ok g)
    {n : CNode} (hn : n ∈ g.nodes) (hname : n.name = "hpxsc")
    {r : DepRule} (hr : r ∈ hpxsc.deps)
    (hact : evalPred comp n.version n.assign r.activation = some true) :
    ∃ c ∈ g.nodes, c.name = r.target ∧ NodeSat c r.tcVars r.tcVers := by
  obtain ⟨-, -, hedges, hnodes⟩ := resolve_ok_graphOk h
  obtain ⟨pd', hpd'mem, hfind', -, hdeps, -, -, -⟩ := hnodes n hn
  have hfind'' : hpxscDefs.find? (fun d => d.pname = n.name) = some hpxsc := by
    rw [hname]; rfl
  have hpd : pd' = hpxsc := by rw [hfind'] at hfind''; injection hfind''
  subst hpd
  obtain ⟨e, he, hep, het, hea, hetv, hetr⟩ := hdeps _ hr hact
  obtain ⟨-, c, hc, hcname, hsat⟩ := hedges e he
  rw [hetv, hetr] at hsat
  exact ⟨c, hc, by rw [hcname, het], hsat⟩

/-- A rule of the CUDA per-architecture loop is among hpxsc's rules. -/
theorem cudaLoop_subset {X : String} (hX : X ∈ cudaArchValues) {r : DepRule}
    (hr : r ∈ cudaLoopRules X) : r ∈ hpxsc.deps := by
  show r ∈ hpxscDeps
  unfold hpxscDeps
  exact List.mem_append_left _
    (List.mem_append_right _ (List.mem_flatMap.mpr ⟨X, hX, hr⟩))

/-- A rule of the ROCm per-target loop is among hpxsc's rules. -/
theorem rocmLoop_subset {Y : String} (hY : Y ∈ amdgpuTargets) {r : DepRule}
    (hr : r ∈ rocmLoopRules Y) : r ∈ hpxsc.deps := by
  show r ∈ hpxscDeps
  unfold hpxscDeps
  exact List.mem_append_right _ (List.mem_flatMap.mpr ⟨Y, hY, hr⟩)

/-! ## Claim theorems -/

/-- Claim C1: every graph `resolve` returns honors all its edges (the
activation predicate is true at the parent's final assignment and the
child satisfies the target constraints), makes no conflict predicate true,
and — for the hpxsc recipe — never assigns both `cuda=true` and
`rocm=true` to the root node. -/
theorem claim_C1 (defs : List PackageDef) (comp : String × List Nat)
    (root : String) (vreq : List VRange) (ov : List (String × String))
    (g : ConcretizedGraph)
    (h : resolve defs comp root vreq ov = .ok g) :
    ResolveInv defs comp root g := by
  obtain ⟨hroot, hrootn, hedges, hnodes⟩ := resolve_ok_graphOk h
  refine ⟨fun e he => hedges e he, ?_, ?_⟩
  · intro n hn pd hpdmem hfind cr hcr
    obtain ⟨pd', hpd'mem, hfind', hconf, -, -, -, -⟩ := hnodes n hn
    have hpd : pd' = pd := by rw [hfind'] at hfind; injection hfind
    subst hpd
    exact hconf cr hcr
  · rintro rfl rfl n hn hname ⟨hcuda, hrocm⟩
    obtain ⟨pd', hpd'mem, hfind', hconf, -, -, -, -⟩ := hnodes n hn
    have hfind'' : hpxscDefs.find? (fun d => d.pname = n.name) = some hpxsc := by
      rw [hname]; rfl
    have hpd : pd' = hpxsc := by rw [hfind'] at hfind''; injection hfind''
    subst hpd
    have hmem : (⟨.and (pT "cuda") (pT "rocm")⟩ : ConflictRule) ∈
        hpxsc.conflicts := by decide
    have hnot := hconf _ hmem
    apply hnot
    simp [evalPred, evalAtom, pT, pv, hcuda, hrocm, andO]

/-- Witness for C1: the invariant holds of the default hpxsc resolution. -/
theorem claim_C1_witness : ResolveInv hpxscDefs gcc12 "hpxsc" G0 :=
  claim_C1 hpxscDefs gcc12 "hpxsc" [] [] G0 rfl

/-- Claim C2: with the hpxsc recipe's rule `depends_on('hpx +cuda
+async_cuda', when='+cuda')`, resolving with `cuda=true` yields a graph
containing an `hpx` node, and resolving with `cuda=false` yields a graph
with no edge created by that rule. -/
theorem claim_C2 :
    resolve hpxscDefs gcc12 "hpxsc" [] [("cuda", "true")] = .ok GA ∧
    (∃ c ∈ GA.nodes, c.name = "hpx") ∧
    resolve hpxscDefs gcc12 "hpxsc" [] [("cuda", "false")] = .ok GB ∧
    (∀ e ∈ GB.edges, ¬(e.target = "hpx" ∧ e.activation = pT "cuda")) :=
  ⟨rfl, by decide, rfl, by decide⟩

/-- Claim C3: requesting `cuda=true rocm=true` against the recipe's
`conflicts("+cuda", when="+rocm")` fails with
`UnsatisfiableConstraintsError`, and the failure is terminal — no graph is
returned. -/
theorem claim_C3 :
    resolve hpxscDefs gcc12 "hpxsc" []
      [("cuda", "true"), ("rocm", "true")] = .error .unsatisfiable ∧
    (resolve hpxscDefs gcc12 "hpxsc" []
      [("cuda", "true"), ("rocm", "true")]).toOption = none :=
  ⟨rfl, rfl⟩

/-- Claim C4: the rules targeting `hpx-kokkos` merge conjunctively onto a
single shared node (here at least two of them are active and exactly one
node exists), and a contradictory merge (`x=1` versus `x=2` on the same
target) fails immediately with an unsatisfiability error. -/
theorem claim_C4 :
    resolve hpxscDefs gcc12 "hpxsc" []
      [("kokkos", "true"), ("cuda", "true")] = .ok GK ∧
    (GK.nodes.filter (fun n => n.name = "hpx-kokkos")).length = 1 ∧
    2 ≤ (GK.edges.filter (fun e => e.target = "hpx-kokkos")).length ∧
    resolve scnDefs gcc12 "p" []
      [("cuda", "true"), ("kokkos", "true")] = .error .unsatisfiable :=
  ⟨rfl, by decide, by decide, rfl⟩

/-- Claim C5: `resolve` is deterministic — two runs on the same root,
overrides and definitions yield graphs with the same canonical string. -/
theorem claim_C5 (defs : List PackageDef) (comp : String × List Nat)
    (root : String) (vreq : List VRange) (ov : List (String × String))
    (g1 g2 : ConcretizedGraph)
    (h1 : resolve defs comp root vreq ov = .ok g1)
    (h2 : resolve defs comp root vreq ov = .ok g2) :
    toCanonicalString g1 = toCanonicalString g2 := by
  have h := h1.symm.trans h2
  have hg : g1 = g2 := by injection h
  rw [hg]

/-- Witness for C5: the two-run equality at the default hpxsc resolution. -/
theorem claim_C5_witness : toCanonicalString G0 = toCanonicalString G0 :=
  claim_C5 hpxscDefs gcc12 "hpxsc" [] [] G0 G0 rfl rfl

/-- Claim C6: every node's version is the highest declared version
satisfying the conjunction of all version-range constraints collected for
that node (the root request plus every edge targeting it), and this choice
is a function of the version constraints alone — any node of any other
resolution with the same declared versions and the same collected
constraints gets the same version, independently of variant overrides
(version solving precedes and does not interleave with variant solving). -/
theorem claim_C6 (defs : List PackageDef) (comp : String × List Nat)
    (root : String) (vreq : List VRange) (ov : List (String × String))
    (g : ConcretizedGraph)
    (h : resolve defs comp root vreq ov = .ok g)
    (n : CNode) (hn : n ∈ g.nodes) (pd : PackageDef)
    (hfind : defs.find? (fun d => d.pname = n.name) = some pd) :
    IsMaxVersion pd.versions (collectedCs g vreq n) n.version ∧
    (∀ (defs2 : List PackageDef) (comp2 : String × List Nat) (root2 : String)
       (vreq2 : List VRange) (ov2 : List (String × String))
       (g2 : ConcretizedGraph),
       resolve defs2 comp2 root2 vreq2 ov2 = .ok g2 →
       ∀ n2 ∈ g2.nodes, ∀ pd2 : PackageDef,
         defs2.find? (fun d => d.pname = n2.name) = some pd2 →
         pd2.versions = pd.versions →
         (∀ r : VRange,
           r ∈ collectedCs g2 vreq2 n2 ↔ r ∈ collectedCs g vreq n) →
         n2.version = n.version) := by
  obtain ⟨-, -, -, hnodes⟩ := resolve_ok_graphOk h
  obtain ⟨pd', -, hfind', -, -, -, -, hmax⟩ := hnodes n hn
  have hpd : pd' = pd := by rw [hfind'] at hfind; injection hfind
  subst hpd
  refine ⟨hmax, ?_⟩
  intro defs2 comp2 root2 vreq2 ov2 g2 h2 n2 hn2 pd2 hfind2 hvers hcs
  obtain ⟨-, -, -, hnodes2⟩ := resolve_ok_graphOk h2
  obtain ⟨pd2', -, hfind2', -, -, -, -, hmax2⟩ := hnodes2 n2 hn2
  have hpd2 : pd2' = pd2 := by rw [hfind2'] at hfind2; injection hfind2
  subst hpd2
  obtain ⟨hmem1, hsat1, hge1⟩ := hmax
  obtain ⟨hmem2, hsat2, hge2⟩ := hmax2
  rw [hvers] at hmem2 hge2
  have h12 : vLe n2.version n.version = true :=
    hge1 _ hmem2 (fun r hr => hsat2 r ((hcs r).mpr hr))
  have h21 : vLe n.version n2.version = true :=
    hge2 _ hmem1 (fun r hr => hsat1 r ((hcs r).mp hr))
  exact vLe_antisymm h12 h21

/-- Witness for C6: version maximality at the root of the default hpxsc
resolution. -/
theorem claim_C6_witness :
    IsMaxVersion hpxsc.versions (collectedCs G0 [] (rootNode G0))
      (rootNode G0).version ∧
    (∀ (defs2 : List PackageDef) (comp2 : String × List Nat) (root2 : String)
       (vreq2 : List VRange) (ov2 : List (String × String))
       (g2 : ConcretizedGraph),
       resolve defs2 comp2 root2 vreq2 ov2 = .ok g2 →
       ∀ n2 ∈ g2.nodes, ∀ pd2 : PackageDef,
         defs2.find? (fun d => d.pname = n2.name) = some pd2 →
         pd2.versions = hpxsc.versions →
         (∀ r : VRange,
           r ∈ collectedCs g2 vreq2 n2 ↔
             r ∈ collectedCs G0 [] (rootNode G0)) →
         n2.version = (rootNode G0).version) :=
  claim_C6 hpxscDefs gcc12 "hpxsc" [] [] G0 rfl (rootNode G0) (by decide)
    hpxsc rfl

/-- Claim C7: with no override and no rule constraining it, the
single-valued variant `simd_extension` (domain DISCOVER/SCALAR/AVX/AVX512/
NEON/SVE, default DISCOVER) is assigned its default DISCOVER in the final
graph. -/
theorem claim_C7 :
    resolve hpxscDefs gcc12 "hpxsc" [] [] = .ok G0 ∧
    lookupA (rootNode G0).assign "simd_extension" = some "DISCOVER" :=
  ⟨rfl, rfl⟩

/-- Claim C8: whenever a resolved hpxsc graph has `kokkos=true`,
`cuda=true` and `cuda_arch=X` at the root (for any X of the architecture
axis), the `kokkos`, `hpx-kokkos` and `hpx` children all carry `cuda=true`
and `cuda_arch=X`; symmetrically for `amdgpu_target` under `rocm=true`. -/
theorem claim_C8 (comp : String × List Nat) (vreq : List VRange)
    (ov : List (String × String)) (g : ConcretizedGraph)
    (h : resolve hpxscDefs comp "hpxsc" vreq ov = .ok g)
    (n : CNode) (hn : n ∈ g.nodes) (hname : n.name = "hpxsc")
    (hk : lookupA n.assign "kokkos" = some "true") :
    (∀ X ∈ cudaArchValues, lookupA n.assign "cuda" = some "true" →
       lookupA n.assign "cuda_arch" = some X →
       GpuChildren g "cuda" "cuda_arch" X) ∧
    (∀ Y ∈ amdgpuTargets, lookupA n.assign "rocm" = some "true" →
       lookupA n.assign "amdgpu_target" = some Y →
       GpuChildren g "rocm" "amdgpu_target" Y) := by
  constructor
  · intro X hX hc ha
    have hXX : decide (X = X) = true := decide_eq_true rfl
    have hact3 : evalPred comp n.version n.assign
        (.and (pT "kokkos") (.and (pT "cuda") (pv "cuda_arch" X))) =
          some true := by
      simp [evalPred, evalAtom, pT, pv, hk, hc, ha, andO, hXX]
    have hact2 : evalPred comp n.version n.assign
        (.and (pT "cuda") (pv "cuda_arch" X)) = some true := by
      simp [evalPred, evalAtom, pT, pv, hc, ha, andO, hXX]
    refine ⟨?_, ?_, ?_⟩
    · obtain ⟨c, hcmem, hcname, hsat⟩ :=
        dep_child h hn hname
          (cudaLoop_subset hX
            (show (⟨"kokkos", kokkosBase ++
              [("cuda", "true"), ("cuda_lambda", "true"), ("cuda_arch", X)],
              [], .and (pT "kokkos") (.and (pT "cuda") (pv "cuda_arch" X))⟩ :
                DepRule) ∈ cudaLoopRules X by simp [cudaLoopRules]))
          hact3
      exact ⟨c, hcmem, hcname,
        hsat.1 ("cuda", "true") (by simp [kokkosBase]),
        hsat.1 ("cuda_arch", X) (by simp [kokkosBase])⟩
    · obtain ⟨c, hcmem, hcname, hsat⟩ :=
        dep_child h hn hname
          (cudaLoop_subset hX
            (show (⟨"hpx-kokkos", [("cuda", "true"), ("cuda_arch", X)], [],
              .and (pT "kokkos") (.and (pT "cuda") (pv "cuda_arch" X))⟩ :
                DepRule) ∈ cudaLoopRules X by simp [cudaLoopRules]))
          hact3
      exact ⟨c, hcmem, hcname, hsat.1 ("cuda", "true") (by simp),
        hsat.1 ("cuda_arch", X) (by simp)⟩
    · obtain ⟨c, hcmem, hcname, hsat⟩ :=
        dep_child h hn hname
          (cudaLoop_subset hX
            (show (⟨"hpx", [("cuda", "true"), ("cuda_arch", X)], [],
              .and (pT "cuda") (pv "cuda_arch" X)⟩ :
                DepRule) ∈ cudaLoopRules X by simp [cudaLoopRules]))
          hact2
      exact ⟨c, hcmem, hcname, hsat.1 ("cuda", "true") (by simp),
        hsat.1 ("cuda_arch", X) (by simp)⟩
  · intro Y hY hro ha
    have hYY : decide (Y = Y) = true := decide_eq_true rfl
    have hact3 : evalPred comp n.version n.assign
        (.and (pT "kokkos") (.and (pT "rocm") (pv "amdgpu_target" Y))) =
          some true := by
      simp [evalPred, evalAtom, pT, pv, hk, hro, ha, andO, hYY]
    have hact2 : evalPred comp n.version n.assign
        (.and (pT "rocm") (pv "amdgpu_target" Y)) = some true := by
      simp [evalPred, evalAtom, pT, pv, hro, ha, andO, hYY]
    refine ⟨?_, ?_, ?_⟩
    · obtain ⟨c, hcmem, hcname, hsat⟩ :=
        dep_child h hn hname
          (rocmLoop_subset hY
            (show (⟨"kokkos", kokkosBase ++
              [("rocm", "true"), ("amdgpu_target", Y)], [],
              .and (pT "kokkos") (.and (pT "rocm") (pv "amdgpu_target" Y))⟩ :
                DepRule) ∈ rocmLoopRules Y by simp [rocmLoopRules]))
          hact3
      exact ⟨c, hcmem, hcname,
        hsat.1 ("rocm", "true") (by simp [kokkosBase]),
        hsat.1 ("amdgpu_target", Y) (by simp [kokkosBase])⟩
    · obtain ⟨c, hcmem, hcname, hsat⟩ :=
        dep_child h hn hname
          (rocmLoop_subset hY
            (show (⟨"hpx-kokkos", [("rocm", "true"), ("amdgpu_target", Y)],
              [⟨some .master, some .master⟩],
              .and (pT "kokkos") (.and (pT "rocm") (pv "amdgpu_target" Y))⟩ :
                DepRule) ∈ rocmLoopRules Y by simp [rocmLoopRules]))
          hact3
      exact ⟨c, hcmem, hcname, hsat.1 ("rocm", "true") (by simp),
        hsat.1 ("amdgpu_target", Y) (by simp)⟩
    · obtain ⟨c, hcmem, hcname, hsat⟩ :=
        dep_child h hn hname
          (rocmLoop_subset hY
            (show (⟨"hpx", [("rocm", "true"), ("amdgpu_target", Y)], [],
              .and (pT "rocm") (pv "amdgpu_target" Y)⟩ :
                DepRule) ∈ rocmLoopRules Y by simp [rocmLoopRules]))
          hact2
      exact ⟨c, hcmem, hcname, hsat.1 ("rocm", "true") (by simp),
        hsat.1 ("amdgpu_target", Y) (by simp)⟩

/-- Witness for C8: the propagation statement at the root of the
`kokkos=true cuda=true` resolution (which picks `cuda_arch=50`). -/
theorem claim_C8_witness :
    (∀ X ∈ cudaArchValues,
       lookupA (rootNode GK).assign "cuda" = some "true" →
       lookupA (rootNode GK).assign "cuda_arch" = some X →
       GpuChildren GK "cuda" "cuda_arch" X) ∧
    (∀ Y ∈ amdgpuTargets,
       lookupA (rootNode GK).assign "rocm" = some "true" →
       lookupA (rootNode GK).assign "amdgpu_target" = some Y →
       GpuChildren GK "rocm" "amdgpu_target" Y) :=
  claim_C8 gcc12 [] [("kokkos", "true"), ("cuda", "true")] GK rfl
    (rootNode GK) (by decide) rfl rfl

/-- Claim C9: in every successfully resolved hpxsc graph, `rocm=true` on
the root implies `kokkos=true` on the root (conflict `+rocm when -kokkos`),
and `cuda=true` implies `cuda_arch` is not `none` (conflict `+cuda when
cuda_arch=none`). -/
theorem claim_C9 (comp : String × List Nat) (vreq : List VRange)
    (ov : List (String × String)) (g : ConcretizedGraph)
    (h : resolve hpxscDefs comp "hpxsc" vreq ov = .ok g)
    (n : CNode) (hn : n ∈ g.nodes) (hname : n.name = "hpxsc") :
    (lookupA n.assign "rocm" = some "true" →
      lookupA n.assign "kokkos" = some "true") ∧
    (lookupA n.assign "cuda" = some "true" →
      ¬ lookupA n.assign "cuda_arch" = some "none") := by
  obtain ⟨-, -, -, hnodes⟩ := resolve_ok_graphOk h
  obtain ⟨pd', hpd'mem, hfind', hconf, hdeps, hvars, hvals, hmax⟩ :=
    hnodes n hn
  have hfind'' : hpxscDefs.find? (fun d => d.pname = n.name) = some hpxsc := by
    rw [hname]; rfl
  have hpd : pd' = hpxsc := by rw [hfind'] at hfind''; injection hfind''
  subst hpd
  constructor
  · intro hrocm
    have hverin : n.version ∈ hpxsc.versions := hmax.1
    have hsince : evalPred comp n.version n.assign since010 = some true := by
      have hv2 : n.version = Version.master ∨
          n.version = Version.rel [0, 1, 0] := by
        simpa [hpxsc] using hverin
      rcases hv2 with hv | hv <;> rw [hv] <;> rfl
    have hmemv : (⟨"kokkos", bdom, "false", since010⟩ : VariantDef) ∈
        hpxsc.variants := by decide
    have hsome := hvars _ hmemv hsince
    obtain ⟨x, hx⟩ := Option.isSome_iff_exists.mp hsome
    have hpair := lookupA_mem hx
    obtain ⟨v, hvmem, hvname, hvdom⟩ := hvals _ hpair
    have hdomeq : ∀ v ∈ hpxsc.variants, v.name = "kokkos" →
        v.domain = bdom := by decide
    have hdom : x ∈ bdom := by rw [← hdomeq v hvmem hvname]; exact hvdom
    have hbx : x = "false" ∨ x = "true" := by simpa [bdom] using hdom
    rcases hbx with rfl | rfl
    · exfalso
      have hmem7 : (⟨.and (pT "rocm") (pF "kokkos")⟩ : ConflictRule) ∈
          hpxsc.conflicts := by decide
      apply hconf _ hmem7
      simp [evalPred, evalAtom, pT, pF, pv, hrocm, hx, andO]
    · exact hx
  · intro hcuda harch
    have hmem1 : (⟨.and (pT "cuda") (pv "cuda_arch" "none")⟩ : ConflictRule) ∈
        hpxsc.conflicts := by decide
    apply hconf _ hmem1
    simp [evalPred, evalAtom, pT, pv, hcuda, harch, andO]

/-- Witness for C9: the implications at the root of the
`kokkos=true rocm=true amdgpu_target=gfx908` resolution. -/
theorem claim_C9_witness :
    (lookupA (rootNode GR).assign "rocm" = some "true" →
      lookupA (rootNode GR).assign "kokkos" = some "true") ∧
    (lookupA (rootNode GR).assign "cuda" = some "true" →
      ¬ lookupA (rootNode GR).assign "cuda_arch" = some "none") :=
  claim_C9 gcc12 []
    [("kokkos", "true"), ("rocm", "true"), ("amdgpu_target", "gfx908")] GR
    rfl (rootNode GR) (by decide) rfl

/-- Claim C10: every resolved hpxsc graph whose root is at version 0.1.0
or above contains an `hpx` node at 1.9.1 or above with `cxxstd=17` and a
`cppuddle` node at 0.2.1 or above with `hpx=true`, regardless of variant
overrides — these two rules are gated only by `@0.1.0:`. -/
theorem claim_C10 (comp : String × List Nat) (vreq : List VRange)
    (ov : List (String × String)) (g : ConcretizedGraph)
    (h : resolve hpxscDefs comp "hpxsc" vreq ov = .ok g)
    (n : CNode) (hn : n ∈ g.nodes) (hname : n.name = "hpxsc")
    (hver : vLe (.rel [0, 1, 0]) n.version = true) :
    (∃ c ∈ g.nodes, c.name = "hpx" ∧ vLe (.rel [1, 9, 1]) c.version = true ∧
       lookupA c.assign "cxxstd" = some "17") ∧
    (∃ c ∈ g.nodes, c.name = "cppuddle" ∧
       vLe (.rel [0, 2, 1]) c.version = true ∧
       lookupA c.assign "hpx" = some "true") := by
  obtain ⟨-, -, hedges, hnodes⟩ := resolve_ok_graphOk h
  obtain ⟨pd', hpd'mem, hfind', hconf, hdeps, hvars, hvals, hmax⟩ :=
    hnodes n hn
  have hfind'' : hpxscDefs.find? (fun d => d.pname = n.name) = some hpxsc := by
    rw [hname]; rfl
  have hpd : pd' = hpxsc := by rw [hfind'] at hfind''; injection hfind''
  subst hpd
  have hact : evalPred comp n.version n.assign since010 = some true := by
    simp [since010, evalPred, evalAtom, VRange.sat, hver]
  constructor
  · have hr1 : (⟨"hpx", [("cxxstd", "17")], [⟨some (.rel [1, 9, 1]), none⟩],
        since010⟩ : DepRule) ∈ hpxsc.deps := by decide
    obtain ⟨e, he, hep, het, hea, hetv, hetr⟩ := hdeps _ hr1 hact
    obtain ⟨-, c, hc, hcname, hsat⟩ := hedges e he
    refine ⟨c, hc, by rw [hcname, het], ?_, ?_⟩
    · have hrt : (⟨some (.rel [1, 9, 1]), none⟩ : VRange) ∈ e.tcVers := by
        rw [hetr]; exact List.mem_singleton.mpr rfl
      have := hsat.2 _ hrt
      simpa [VRange.sat] using this
    · have hkv : ("cxxstd", "17") ∈ e.tcVars := by
        rw [hetv]; exact List.mem_singleton.mpr rfl
      exact hsat.1 _ hkv
  · have hr2 : (⟨"cppuddle", [("hpx", "true")],
        [⟨some (.rel [0, 2, 1]), none⟩], since010⟩ : DepRule) ∈
        hpxsc.deps := by decide
    obtain ⟨e, he, hep, het, hea, hetv, hetr⟩ := hdeps _ hr2 hact
    obtain ⟨-, c, hc, hcname, hsat⟩ := hedges e he
    refine ⟨c, hc, by rw [hcname, het], ?_, ?_⟩
    · have hrt : (⟨some (.rel [0, 2, 1]), none⟩ : VRange) ∈ e.tcVers := by
        rw [hetr]; exact List.mem_singleton.mpr rfl
      have := hsat.2 _ hrt
      simpa [VRange.sat] using this
    · have hkv : ("hpx", "true") ∈ e.tcVars := by
        rw [hetv]; exact List.mem_singleton.mpr rfl
      exact hsat.1 _ hkv

/-- Witness for C10: the hpx and cppuddle nodes of the default hpxsc
resolution, whose root resolves to the preferred `master` version. -/
theorem claim_C10_witness :
    (∃ c ∈ G0.nodes, c.name = "hpx" ∧
       vLe (.rel [1, 9, 1]) c.version = true ∧
       lookupA c.assign "cxxstd" = some "17") ∧
    (∃ c ∈ G0.nodes, c.name = "cppuddle" ∧
       vLe (.rel [0, 2, 1]) c.version = true ∧
       lookupA c.assign "hpx" = some "true") :=
  claim_C10 gcc12 [] [] G0 rfl (rootNode G0) (by decide) rfl (by decide)

end HpxscSpack
